import Mathlib

/-!
Verification development for the Gitlab version-negotiating client facade
(`pkg/scm/provider/gitlab`, file `options.go` of the cyclone repository).

The Go source is shallowly embedded: pure helpers become Lean functions,
the process-wide version cache becomes explicit state passing over an
association list, and the HTTP transport becomes an environment function
`Request → HTTPResult` supplied by the caller.  JSON response bodies are
modelled by `RespBody`: a well-formed JSON object carries the three field
projections the source ever decodes (`version`, `reversion`,
`access_token`), and a malformed body fails every decode.
-/

namespace Cyclone

/-! ### Go standard-library string helpers (strings.HasPrefix, strings.Contains) -/

/-- Embedding of Go `strings.HasPrefix(s, pre)`. -/
def stringsHasPrefix (s pre : String) : Bool :=
  List.isPrefixOf pre.data s.data

/-- Auxiliary scan for `stringsContains`: does `pat` occur in the list? -/
def containsAux (pat : List Char) : List Char → Bool
  | [] => pat.isEmpty
  | a :: l => List.isPrefixOf pat (a :: l) || containsAux pat l

/-- Embedding of Go `strings.Contains(s, pat)` (substring occurrence). -/
def stringsContains (s pat : String) : Bool :=
  containsAux pat.data s.data

/-- Embedding of Go `strings.TrimSuffix(s, suffix)`. -/
def stringsTrimSuffix (s suffix : String) : String :=
  if List.isSuffixOf suffix.data s.data then
    String.mk (s.data.take (s.data.length - suffix.data.length))
  else s

/-- ASCII lower-casing of one character (used by the server-identity model). -/
def asciiLower (c : Char) : Char :=
  if 65 ≤ c.toNat ∧ c.toNat ≤ 90 then Char.ofNat (c.toNat + 32) else c

/-! ### Constants of options.go -/

/-- The server address for public Gitlab (`gitLabServer` in the source). -/
def gitLabServer : String := "https://gitlab.com"

/-- Constant `v3APIVersion`. -/
def v3APIVersion : String := "v3"

/-- Constant `v4APIVersion`. -/
def v4APIVersion : String := "v4"

/-! ### Data model -/

/-- Connection configuration (`api.SCMConfig`).  The `api` package is not part
of the staged source; the four fields below are exactly the ones options.go
reads or writes (`Server`, `Username`, `Password`, `Token`), matching the
spec's `ConnectionConfig`. -/
structure SCMConfig where
  server : String
  username : String
  password : String
  token : String
deriving DecidableEq

/-- Build status (`api.Status`).  Modelled from the spec: the `api` package is
not part of the staged source; §3 gives the enum
`{Running, Success, Failed, Aborted, <other>}`, where `other` stands for any
unrecognized status value. -/
inductive Status where
  | Running
  | Success
  | Failed
  | Aborted
  | other (s : String)
deriving DecidableEq

/-! ### transStatus (status vocabulary translation) -/

/-- Embedding of `transStatus`: translates an `api.Status` to the pair
(state, description) in Gitlab's vocabulary; the default branch only logs and
keeps the initial `("pending", "")` pair. -/
def transStatus (recordStatus : Status) : String × String :=
  match recordStatus with
  | Status.Running => ("running", "The Cyclone CI build is in progress.")
  | Status.Success => ("success", "The Cyclone CI build passed.")
  | Status.Failed => ("failed", "The Cyclone CI build failed.")
  | Status.Aborted => ("canceled", "The Cyclone CI build failed.")
  | Status.other _ => ("pending", "")

/-! ### getTopLanguage

Go iterates the `map[string]float32` with a running maximum that starts at
zero and a strict comparison.  The map is modelled as an association list
(the iteration order being one of the unspecified orders Go may use), and
`float32` values as exact rationals: the function only ever compares values,
so the embedding is order-faithful. -/

/-- Loop of `getTopLanguage`: state is the current best key and running
maximum (Go starts from `language = ""`, `max = 0`). -/
def getTopLanguageAux : List (String × ℚ) → String → ℚ → String
  | [], language, _ => language
  | (l, value) :: rest, language, mx =>
    if value > mx then getTopLanguageAux rest l value
    else getTopLanguageAux rest language mx

/-- Embedding of `getTopLanguage`. -/
def getTopLanguage (languages : List (String × ℚ)) : String :=
  getTopLanguageAux languages "" 0

/-! ### HTTP model

The transport is an environment function from a request to a result.  A
response body is either a well-formed JSON object — carrying the three field
projections the source ever decodes, with absent fields projecting to the
empty string exactly as `json.Unmarshal` zero-fills absent fields — or a
malformed payload on which every decode fails. -/

/-- Body of an HTTP response, as seen by the JSON decoding in options.go. -/
inductive RespBody where
  | json (version reversion accessToken : String)
  | malformed (raw : String)
deriving DecidableEq

/-- An HTTP response: status code and body (body reading is modelled as
always succeeding, the body being part of the response value). -/
structure HTTPResponse where
  status : Nat
  body : RespBody
deriving DecidableEq

/-- Result of one HTTP round trip: a response, or a transport-level failure
(connection error, timeout). -/
inductive HTTPResult where
  | ok (resp : HTTPResponse)
  | transportFailure
deriving DecidableEq

/-- An outgoing HTTP request as options.go builds it.  `grantBody` is the
password-grant JSON body `(grant_type, username, password)` of the token
exchange; every other request has none. -/
structure Request where
  method : String
  url : String
  headers : List (String × String)
  grantBody : Option (String × String × String)
deriving DecidableEq

/-- Classified errors returned by options.go (Go returns `error` values;
each constructor is one distinct `fmt.Errorf` / propagation site). -/
inductive GoErr where
  | missingCredentials
  | transportFailure
  | decodeFailed
  | tokenExchangeFailed (body : RespBody)
  | clientConstructionFailed
  | unsupportedVersion (version : String)
deriving DecidableEq

/-- Decoding of a response body as `oauth2.Token` (field `access_token`). -/
def decodeOauthToken : RespBody → Option String
  | RespBody.json _ _ accessToken => some accessToken
  | RespBody.malformed _ => none

/-- The `versionResponse` struct of options.go (fields `version`,
`reversion`). -/
structure versionResponse where
  version : String
  reversion : String
deriving DecidableEq

/-- Decoding of a response body as `versionResponse`. -/
def decodeVersionResponse : RespBody → Option versionResponse
  | RespBody.json version reversion _ => some ⟨version, reversion⟩
  | RespBody.malformed _ => none

/-! ### getOauthToken (credential resolver) -/

/-- The hard-coded public-SaaS override of `getOauthToken`: if the server
string contains "gitlab.com" and starts with "http://", the server is
replaced by the canonical `gitLabServer`. -/
def saasRewrite (scm : SCMConfig) : SCMConfig :=
  if stringsContains scm.server "gitlab.com" && stringsHasPrefix scm.server "http://" then
    { scm with server := gitLabServer }
  else scm

/-- The POST request `getOauthToken` issues against `<server>/oauth/token`. -/
def oauthTokenRequest (server username password : String) : Request :=
  { method := "POST"
    url := server ++ "/oauth/token"
    headers := [("Content-Type", "application/json")]
    grantBody := some ("password", username, password) }

/-- Embedding of `getOauthToken`.  Returns the (possibly mutated) config, the
list of HTTP requests issued, and the result.  The missing-credentials check
precedes everything; the SaaS rewrite precedes the dispatch; a 2xx response
is decoded as an OAuth token and its access-token field returned; a non-2xx
response fails carrying the raw body. -/
def getOauthToken (http : Request → HTTPResult) (scm : SCMConfig) :
    SCMConfig × List Request × Except GoErr String :=
  if scm.username.length = 0 ∨ scm.password.length = 0 then
    (scm, [], Except.error GoErr.missingCredentials)
  else
    let scm1 := saasRewrite scm
    let req := oauthTokenRequest scm1.server scm.username scm.password
    match http req with
    | HTTPResult.transportFailure => (scm1, [req], Except.error GoErr.transportFailure)
    | HTTPResult.ok resp =>
      if resp.status / 100 = 2 then
        match decodeOauthToken resp.body with
        | some accessToken => (scm1, [req], Except.ok accessToken)
        | none => (scm1, [req], Except.error GoErr.decodeFailed)
      else (scm1, [req], Except.error (GoErr.tokenExchangeFailed resp.body))

/-! ### detectAPIVersion (version prober) -/

/-- The probe request: GET `<server>/api/v4/version` (constant
`apiPathForGitlabVersion`), with the private-token header when the username
is empty and a bearer authorization header otherwise. -/
def probeRequest (scm : SCMConfig) : Request :=
  { method := "GET"
    url := scm.server ++ "/api/v4/version"
    headers := [("Content-Type", "application/json"),
      if scm.username = "" then ("PRIVATE-TOKEN", scm.token)
      else ("Authorization", "Bearer " ++ scm.token)]
    grantBody := none }

/-- Probe phase of `detectAPIVersion`: issue the probe with redirects
disabled and classify the response.  200 with a decodable version body means
v4; 404 or 302 means v3; any other status defaults to v3 with a logged
warning; a transport failure is an error. -/
def probeVersion (http : Request → HTTPResult) (scm : SCMConfig) (reqs : List Request) :
    SCMConfig × List Request × Except GoErr String :=
  let req := probeRequest scm
  match http req with
  | HTTPResult.transportFailure => (scm, reqs ++ [req], Except.error GoErr.transportFailure)
  | HTTPResult.ok resp =>
    if resp.status = 200 then
      match decodeVersionResponse resp.body with
      | some _ => (scm, reqs ++ [req], Except.ok v4APIVersion)
      | none => (scm, reqs ++ [req], Except.error GoErr.decodeFailed)
    else if resp.status = 404 ∨ resp.status = 302 then
      (scm, reqs ++ [req], Except.ok v3APIVersion)
    else
      (scm, reqs ++ [req], Except.ok v3APIVersion)

/-- Embedding of `detectAPIVersion`: when the token is empty, first resolve
it through `getOauthToken` (recording the mutation of the config), then
probe. -/
def detectAPIVersion (http : Request → HTTPResult) (scm : SCMConfig) :
    SCMConfig × List Request × Except GoErr String :=
  if scm.token = "" then
    match getOauthToken http scm with
    | (scm1, reqs, Except.error e) => (scm1, reqs, Except.error e)
    | (scm1, reqs, Except.ok token) => probeVersion http { scm1 with token := token } reqs
  else probeVersion http scm []

/-! ### Version cache and getAPIVersion -/

/-- The process-wide map `gitlabServerAPIVersions`, modelled as an
association list in which the most recent write for a key comes first. -/
abbrev VersionCache := List (String × String)

/-- Map read `cache[server]`. -/
def cacheGet : VersionCache → String → Option String
  | [], _ => none
  | (k, v) :: rest, server => if k = server then some v else cacheGet rest server

/-- Map write `cache[server] = version`. -/
def cacheSet (cache : VersionCache) (server version : String) : VersionCache :=
  (server, version) :: cache

/-- Invariant of the version cache: every recorded generation tag is one of
the two supported version strings.  It holds of the initial empty cache and,
as proved below, is preserved by every write the code performs. -/
def CacheWF (cache : VersionCache) : Prop :=
  ∀ p ∈ cache, p.2 = v3APIVersion ∨ p.2 = v4APIVersion

/-- Modelled from the spec: `provider.ParseServerURL` lives in the
`pkg/scm/provider` package, which is not part of the staged source.  Per §3
it returns a normalized server identity under which configs differing in
casing or a trailing slash coincide: strip one trailing slash and lower-case
the string. -/
def ParseServerURL (server : String) : String :=
  String.mk ((stringsTrimSuffix server "/").data.map asciiLower)

/-- Embedding of `getAPIVersion`: answer from the cache when the normalized
server identity is present; otherwise probe via `detectAPIVersion` and, only
on success, record the result under the identity computed from the original
server string. -/
def getAPIVersion (http : Request → HTTPResult) (scm : SCMConfig) (cache : VersionCache) :
    SCMConfig × VersionCache × List Request × Except GoErr String :=
  let server := ParseServerURL scm.server
  match cacheGet cache server with
  | some v => (scm, cache, [], Except.ok v)
  | none =>
    match detectAPIVersion http scm with
    | (scm1, reqs, Except.error e) => (scm1, cache, reqs, Except.error e)
    | (scm1, reqs, Except.ok version) =>
      (scm1, cacheSet cache server version, reqs, Except.ok version)

/-! ### Client construction and NewGitlab (facade / factory) -/

/-- A generation-specific Gitlab API client, reduced to what options.go
configures: whether it was built OAuth-style or private-token-style, the
credential, and the base URL.  `SetBaseURL` of the opaque client library may
reject a malformed URL; that behaviour is a parameter `setBaseURLOk`. -/
structure GitlabClient where
  oauth : Bool
  token : String
  baseURL : String
deriving DecidableEq

/-- Embedding of `newGitlabV3Client`. -/
def newGitlabV3Client (setBaseURLOk : String → Bool) (server username token : String) :
    Except GoErr GitlabClient :=
  let base := server ++ "/api/" ++ v3APIVersion
  if setBaseURLOk base then
    Except.ok { oauth := username.length != 0, token := token, baseURL := base }
  else Except.error GoErr.clientConstructionFailed

/-- Embedding of `newGitlabV4Client`. -/
def newGitlabV4Client (setBaseURLOk : String → Bool) (server username token : String) :
    Except GoErr GitlabClient :=
  let base := server ++ "/api/" ++ v4APIVersion
  if setBaseURLOk base then
    Except.ok { oauth := username.length != 0, token := token, baseURL := base }
  else Except.error GoErr.clientConstructionFailed

/-- The provider value `NewGitlab` returns: the v3 adapter `GitlabV3` or the
v4 adapter `GitlabV4`, each holding the config and its client. -/
inductive SCMProvider where
  | GitlabV3 (scmCfg : SCMConfig) (client : GitlabClient)
  | GitlabV4 (scmCfg : SCMConfig) (v4Client : GitlabClient)
deriving DecidableEq

/-- Embedding of `NewGitlab`: resolve the API version (cache or probe), then
construct the matching adapter; the default switch branch reports an
unsupported version. -/
def NewGitlab (setBaseURLOk : String → Bool) (http : Request → HTTPResult)
    (scmCfg : SCMConfig) (cache : VersionCache) :
    SCMConfig × VersionCache × List Request × Except GoErr SCMProvider :=
  match getAPIVersion http scmCfg cache with
  | (scm1, cache1, reqs, Except.error e) => (scm1, cache1, reqs, Except.error e)
  | (scm1, cache1, reqs, Except.ok version) =>
    if version = v3APIVersion then
      match newGitlabV3Client setBaseURLOk scm1.server scm1.username scm1.token with
      | Except.error e => (scm1, cache1, reqs, Except.error e)
      | Except.ok client => (scm1, cache1, reqs, Except.ok (SCMProvider.GitlabV3 scm1 client))
    else if version = v4APIVersion then
      match newGitlabV4Client setBaseURLOk scm1.server scm1.username scm1.token with
      | Except.error e => (scm1, cache1, reqs, Except.error e)
      | Except.ok v4Client => (scm1, cache1, reqs, Except.ok (SCMProvider.GitlabV4 scm1 v4Client))
    else (scm1, cache1, reqs, Except.error (GoErr.unsupportedVersion version))

/-! ### Spec-side refinement definitions

The following two definitions follow the WORDS OF THE SPEC, not the source:
they exist only to be compared against the source-derived `saasRewrite`
condition in the refinement claim about the SaaS host rewrite. -/

/-- Host of a URL string as the spec speaks of it: the authority part between
the scheme separator and the next slash. -/
def specURLHost (server : String) : String :=
  let rest :=
    if stringsHasPrefix server "http://" then String.mk (server.data.drop 7)
    else if stringsHasPrefix server "https://" then String.mk (server.data.drop 8)
    else server
  String.mk (rest.data.takeWhile (fun c => c ≠ '/'))

/-- The spec's rewrite trigger: "the server's host matches the provider's
public SaaS host and the scheme is insecure". -/
def specSaaSRewriteCond (server : String) : Prop :=
  specURLHost server = "gitlab.com" ∧ stringsHasPrefix server "http://" = true

instance (server : String) : Decidable (specSaaSRewriteCond server) :=
  inferInstanceAs (Decidable (_ ∧ _))

/-! ### Lemmas about getTopLanguage -/

/-- Once the loop state holds a key whose value bounds every remaining entry
strictly from above (entries with the same key carrying that very value), the
state never changes. -/
theorem getTopLanguageAux_stable (k : String) (v : ℚ) :
    ∀ l : List (String × ℚ),
      (∀ p ∈ l, p.1 = k → p.2 = v) → (∀ p ∈ l, p.1 ≠ k → p.2 < v) →
      getTopLanguageAux l k v = k := by
  intro l
  induction l with
  | nil => intro _ _; rfl
  | cons hd t ih =>
    intro hkey hmax
    obtain ⟨a, b⟩ := hd
    have hrec := ih (fun p hp h => hkey p (List.mem_cons_of_mem _ hp) h)
      (fun p hp h => hmax p (List.mem_cons_of_mem _ hp) h)
    by_cases hak : a = k
    · have hb : b = v := hkey (a, b) (List.mem_cons_self _ _) hak
      simp only [getTopLanguageAux, hb, hak]
      rw [if_neg (lt_irrefl v)]
      exact hrec
    · have hb : b < v := hmax (a, b) (List.mem_cons_self _ _) hak
      simp only [getTopLanguageAux]
      rw [if_neg (not_lt.mpr hb.le)]
      exact hrec

/-- If the list contains an entry `(k, v)` whose value strictly dominates
every other entry and the running maximum is still below `v`, the loop ends
on `k`, whatever the current state. -/
theorem getTopLanguageAux_reaches (k : String) (v : ℚ) :
    ∀ (l : List (String × ℚ)) (lang0 : String) (mx0 : ℚ),
      (k, v) ∈ l → mx0 < v →
      (∀ p ∈ l, p.1 = k → p.2 = v) → (∀ p ∈ l, p.1 ≠ k → p.2 < v) →
      getTopLanguageAux l lang0 mx0 = k := by
  intro l
  induction l with
  | nil => intro lang0 mx0 hmem; exact absurd hmem (List.not_mem_nil _)
  | cons hd t ih =>
    intro lang0 mx0 hmem hmx hkey hmax
    obtain ⟨a, b⟩ := hd
    have hkeyt : ∀ p ∈ t, p.1 = k → p.2 = v :=
      fun p hp h => hkey p (List.mem_cons_of_mem _ hp) h
    have hmaxt : ∀ p ∈ t, p.1 ≠ k → p.2 < v :=
      fun p hp h => hmax p (List.mem_cons_of_mem _ hp) h
    by_cases hak : a = k
    · have hb : b = v := hkey (a, b) (List.mem_cons_self _ _) hak
      simp only [getTopLanguageAux]
      rw [hb, if_pos hmx, hak]
      exact getTopLanguageAux_stable k v t hkeyt hmaxt
    · have hb : b < v := hmax (a, b) (List.mem_cons_self _ _) hak
      have hmemt : (k, v) ∈ t := by
        rcases List.mem_cons.mp hmem with h | h
        · exact absurd (congrArg Prod.fst h).symm hak
        · exact h
      simp only [getTopLanguageAux]
      by_cases hgt : mx0 < b
      · rw [if_pos hgt]
        exact ih a b hmemt hb hkeyt hmaxt
      · rw [if_neg hgt]
        exact ih lang0 mx0 hmemt hmx hkeyt hmaxt

/-- When every value of the list is nonpositive, the strict comparison
against the running maximum (which starts at zero) never fires. -/
theorem getTopLanguageAux_nonpos :
    ∀ (l : List (String × ℚ)) (lang0 : String),
      (∀ p ∈ l, p.2 ≤ 0) → getTopLanguageAux l lang0 0 = lang0 := by
  intro l
  induction l with
  | nil => intro _ _; rfl
  | cons hd t ih =>
    intro lang0 h
    obtain ⟨a, b⟩ := hd
    have hb : b ≤ 0 := h (a, b) (List.mem_cons_self _ _)
    simp only [getTopLanguageAux]
    rw [if_neg (not_lt.mpr hb)]
    exact ih lang0 fun p hp => h p (List.mem_cons_of_mem _ hp)

/-! ### Lemmas about getOauthToken -/

/-- A string has length zero exactly when it is empty (Go's `len(s) == 0`
versus `s == ""`). -/
theorem string_length_eq_zero_iff (s : String) : s.length = 0 ↔ s = "" := by
  cases s with
  | mk data => simp [String.length, String.ext_iff]

/-- The missing-credentials guard of `getOauthToken`, restated over string
emptiness. -/
theorem credsMissing_iff (scm : SCMConfig) :
    (scm.username.length = 0 ∨ scm.password.length = 0) ↔
      (scm.username = "" ∨ scm.password = "") := by
  rw [string_length_eq_zero_iff, string_length_eq_zero_iff]

/-- The SaaS rewrite touches only the server field. -/
theorem saasRewrite_fields (scm : SCMConfig) :
    (saasRewrite scm).username = scm.username ∧ (saasRewrite scm).password = scm.password
      ∧ (saasRewrite scm).token = scm.token := by
  unfold saasRewrite
  split <;> exact ⟨rfl, rfl, rfl⟩

/-- When the rewrite condition holds, the server becomes the public SaaS
endpoint. -/
theorem saasRewrite_server_of_cond (scm : SCMConfig)
    (h : (stringsContains scm.server "gitlab.com"
        && stringsHasPrefix scm.server "http://") = true) :
    (saasRewrite scm).server = gitLabServer := by
  unfold saasRewrite
  rw [if_pos h]

/-- When the rewrite condition fails, the config is untouched. -/
theorem saasRewrite_id_of_not_cond (scm : SCMConfig)
    (h : ¬ (stringsContains scm.server "gitlab.com"
        && stringsHasPrefix scm.server "http://") = true) :
    saasRewrite scm = scm := by
  unfold saasRewrite
  rw [if_neg h]

/-- A string that starts with "http://" is not the https public endpoint. -/
theorem ne_gitLabServer_of_hasPrefix_http (s : String)
    (h : stringsHasPrefix s "http://" = true) : s ≠ gitLabServer := by
  intro he
  rw [he] at h
  exact absurd h (by decide)

/-- With credentials present, the config `getOauthToken` hands back is always
the rewritten config, whatever the transport answers. -/
theorem getOauthToken_fst (http : Request → HTTPResult) (scm : SCMConfig)
    (h : ¬ (scm.username.length = 0 ∨ scm.password.length = 0)) :
    (getOauthToken http scm).1 = saasRewrite scm := by
  simp only [getOauthToken]
  rw [if_neg h]
  cases http (oauthTokenRequest (saasRewrite scm).server scm.username scm.password) with
  | transportFailure => rfl
  | ok resp =>
    simp only []
    split
    · cases decodeOauthToken resp.body <;> rfl
    · rfl

/-! ### Claim theorems -/

/-- C7: `transStatus` is a pure total function mapping `Running` to
`("running", "The Cyclone CI build is in progress.")`, `Success` to
`("success", "The Cyclone CI build passed.")`, and every unrecognized status
value to the default pair `("pending", "")` rather than failing the
caller. -/
theorem transStatus_spec :
    transStatus Status.Running = ("running", "The Cyclone CI build is in progress.")
      ∧ transStatus Status.Success = ("success", "The Cyclone CI build passed.")
      ∧ ∀ s : String, transStatus (Status.other s) = ("pending", "") :=
  ⟨rfl, rfl, fun _ => rfl⟩

/-- C8 counterexample: the mapping `[("Go", 0)]` has "Go" as the key whose
value is strictly greater than every other value (vacuously), yet
`getTopLanguage` returns the empty string, not "Go", because the running
maximum starts at zero and the comparison is strict. -/
theorem getTopLanguage_counterexample :
    (∀ p ∈ [("Go", (0 : ℚ))], p.1 ≠ "Go" → p.2 < 0)
      ∧ getTopLanguage [("Go", (0 : ℚ))] = ""
      ∧ getTopLanguage [("Go", (0 : ℚ))] ≠ "Go" := by
  refine ⟨?_, rfl, ?_⟩ <;> decide

/-- C8 (amended): for every language mapping containing a key whose value is
strictly positive and strictly greater than every other value,
`getTopLanguage` returns that key; and for the empty mapping it returns the
empty string without error.  (In particular
`getTopLanguage [("Go", 80), ("Python", 20)] = "Go"`, exercised by the
witness.) -/
theorem getTopLanguage_spec :
    (∀ (languages : List (String × ℚ)) (k : String) (v : ℚ),
        (k, v) ∈ languages → 0 < v →
        (∀ p ∈ languages, p.1 = k → p.2 = v) →
        (∀ p ∈ languages, p.1 ≠ k → p.2 < v) →
        getTopLanguage languages = k)
      ∧ getTopLanguage [] = "" :=
  ⟨fun languages k v hmem hpos hkey hmax =>
    getTopLanguageAux_reaches k v languages "" 0 hmem hpos hkey hmax, rfl⟩

/-- C8 witness: the spec's own example, `{"Go": 80, "Python": 20}`. -/
theorem getTopLanguage_spec_witness :
    getTopLanguage [("Go", (80 : ℚ)), ("Python", (20 : ℚ))] = "Go" :=
  getTopLanguage_spec.1 [("Go", (80 : ℚ)), ("Python", (20 : ℚ))] "Go" 80
    (by decide) (by decide) (by decide) (by decide)

/-- C10: for every non-empty language mapping in which every value is at most
zero, `getTopLanguage` returns the empty string: the running maximum starts
at zero and the comparison is strict, so no entry is ever selected. -/
theorem getTopLanguage_nonpos (languages : List (String × ℚ))
    (hne : languages ≠ []) (h : ∀ p ∈ languages, p.2 ≤ 0) :
    getTopLanguage languages = "" :=
  getTopLanguageAux_nonpos languages "" h

/-- C10 witness: a one-entry mapping with a negative share. -/
theorem getTopLanguage_nonpos_witness :
    getTopLanguage [("Go", (-1 : ℚ))] = "" :=
  getTopLanguage_nonpos [("Go", (-1 : ℚ))] (by decide) (by decide)

/-- C6: whenever username or password is empty (in particular when token,
username and password are all empty), `getOauthToken` fails with the
missing-credentials error, issues no token-exchange request, and leaves the
config unchanged; and `detectAPIVersion` on a config with an empty token
propagates exactly that outcome. -/
theorem getOauthToken_missingCredentials (http : Request → HTTPResult) (scm : SCMConfig)
    (h : scm.username = "" ∨ scm.password = "") :
    getOauthToken http scm = (scm, [], Except.error GoErr.missingCredentials)
      ∧ (scm.token = "" →
          detectAPIVersion http scm = (scm, [], Except.error GoErr.missingCredentials)) := by
  have hcond : scm.username.length = 0 ∨ scm.password.length = 0 :=
    (credsMissing_iff scm).mpr h
  have h1 : getOauthToken http scm = (scm, [], Except.error GoErr.missingCredentials) := by
    simp only [getOauthToken]
    rw [if_pos hcond]
  refine ⟨h1, fun htok => ?_⟩
  simp only [detectAPIVersion]
  rw [if_pos htok, h1]

/-- C6 witness: token, username and password all empty. -/
theorem getOauthToken_missingCredentials_witness :
    getOauthToken (fun _ => HTTPResult.transportFailure)
        { server := "s", username := "", password := "", token := "" }
      = ({ server := "s", username := "", password := "", token := "" }, [],
          Except.error GoErr.missingCredentials)
      ∧ detectAPIVersion (fun _ => HTTPResult.transportFailure)
        { server := "s", username := "", password := "", token := "" }
      = ({ server := "s", username := "", password := "", token := "" }, [],
          Except.error GoErr.missingCredentials) := by
  have h := getOauthToken_missingCredentials (fun _ => HTTPResult.transportFailure)
    { server := "s", username := "", password := "", token := "" } (Or.inl rfl)
  exact ⟨h.1, h.2 rfl⟩

/-- C5: with credentials present, the token exchange of `getOauthToken`
returns the access-token field of a decodable 2xx response body, fails
carrying the raw response body on any non-2xx status, and fails on a 2xx
body that does not decode. -/
theorem getOauthToken_exchange (http : Request → HTTPResult) (scm : SCMConfig)
    (hu : scm.username ≠ "") (hp : scm.password ≠ "") :
    ∀ resp,
      http (oauthTokenRequest (saasRewrite scm).server scm.username scm.password)
        = HTTPResult.ok resp →
      ((resp.status / 100 = 2 → ∀ v r t, resp.body = RespBody.json v r t →
          getOauthToken http scm
            = (saasRewrite scm,
                [oauthTokenRequest (saasRewrite scm).server scm.username scm.password],
                Except.ok t))
        ∧ (resp.status / 100 = 2 → ∀ s, resp.body = RespBody.malformed s →
            getOauthToken http scm
              = (saasRewrite scm,
                  [oauthTokenRequest (saasRewrite scm).server scm.username scm.password],
                  Except.error GoErr.decodeFailed))
        ∧ (resp.status / 100 ≠ 2 →
            getOauthToken http scm
              = (saasRewrite scm,
                  [oauthTokenRequest (saasRewrite scm).server scm.username scm.password],
                  Except.error (GoErr.tokenExchangeFailed resp.body)))) := by
  intro resp hresp
  have hcond : ¬ (scm.username.length = 0 ∨ scm.password.length = 0) := by
    rw [credsMissing_iff]
    rintro (h | h)
    · exact hu h
    · exact hp h
  refine ⟨?_, ?_, ?_⟩
  · intro h2 v r t hbody
    simp only [getOauthToken]
    rw [if_neg hcond, hresp]
    simp only []
    rw [if_pos h2, hbody]
    rfl
  · intro h2 s hbody
    simp only [getOauthToken]
    rw [if_neg hcond, hresp]
    simp only []
    rw [if_pos h2, hbody]
    rfl
  · intro h2
    simp only [getOauthToken]
    rw [if_neg hcond, hresp]
    simp only []
    rw [if_neg h2]

/-- C5 witness: the stubbed 2xx response carrying access token "T" yields
"T". -/
theorem getOauthToken_exchange_witness :
    getOauthToken (fun _ => HTTPResult.ok ⟨200, RespBody.json "" "" "T"⟩)
        { server := "http://a", username := "u", password := "p", token := "" }
      = ({ server := "http://a", username := "u", password := "p", token := "" },
          [oauthTokenRequest "http://a" "u" "p"], Except.ok "T") :=
  (getOauthToken_exchange (fun _ => HTTPResult.ok ⟨200, RespBody.json "" "" "T"⟩)
      { server := "http://a", username := "u", password := "p", token := "" }
      (by decide) (by decide) ⟨200, RespBody.json "" "" "T"⟩ rfl).1
    (by decide) "" "" "T" rfl

/-- C3 counterexample: with server "http://evil.example/gitlab.com" (whose
host is "evil.example", not the public SaaS host) the resolver still rewrites
the server to "https://gitlab.com", because the source tests substring
containment of "gitlab.com" rather than the host. -/
theorem saasRewrite_counterexample :
    (getOauthToken (fun _ => HTTPResult.transportFailure)
        { server := "http://evil.example/gitlab.com", username := "u", password := "p",
          token := "" }).1.server = "https://gitlab.com"
      ∧ "http://evil.example/gitlab.com" ≠ "https://gitlab.com"
      ∧ ¬ specSaaSRewriteCond "http://evil.example/gitlab.com" := by
  refine ⟨rfl, ?_, ?_⟩ <;> decide

/-- C3 (amended): `getOauthToken` rewrites the server to the canonical secure
public endpoint exactly when credentials are present and the server STRING
CONTAINS "gitlab.com" and starts with the insecure scheme "http://" (the
source tests substring containment, not host equality); this rewrite is the
only change the resolver ever makes to the server, and it never touches the
other config fields. -/
theorem getOauthToken_rewrite_amended (http : Request → HTTPResult) (scm : SCMConfig) :
    ((getOauthToken http scm).1.server ≠ scm.server ↔
        (scm.username ≠ "" ∧ scm.password ≠ ""
          ∧ (stringsContains scm.server "gitlab.com"
              && stringsHasPrefix scm.server "http://") = true))
      ∧ ((getOauthToken http scm).1.server ≠ scm.server →
          (getOauthToken http scm).1.server = gitLabServer)
      ∧ (getOauthToken http scm).1.username = scm.username
      ∧ (getOauthToken http scm).1.password = scm.password
      ∧ (getOauthToken http scm).1.token = scm.token := by
  by_cases hcred : scm.username.length = 0 ∨ scm.password.length = 0
  · have h1 : (getOauthToken http scm).1 = scm := by
      simp only [getOauthToken]
      rw [if_pos hcred]
    rw [h1]
    refine ⟨⟨fun hne => absurd rfl hne, fun ⟨hu, hp, _⟩ => ?_⟩,
      fun hne => absurd rfl hne, rfl, rfl, rfl⟩
    rcases (credsMissing_iff scm).mp hcred with h | h
    · exact absurd h hu
    · exact absurd h hp
  · have h1 : (getOauthToken http scm).1 = saasRewrite scm := getOauthToken_fst http scm hcred
    have hcreds : scm.username ≠ "" ∧ scm.password ≠ "" := by
      rw [credsMissing_iff] at hcred
      push_neg at hcred
      exact hcred
    rw [h1]
    by_cases hC : (stringsContains scm.server "gitlab.com"
        && stringsHasPrefix scm.server "http://") = true
    · have hserver : (saasRewrite scm).server = gitLabServer :=
        saasRewrite_server_of_cond scm hC
      have hpre : stringsHasPrefix scm.server "http://" = true :=
        (Bool.and_eq_true _ _).mp hC |>.2
      have hne : (saasRewrite scm).server ≠ scm.server := by
        rw [hserver]
        exact fun he => ne_gitLabServer_of_hasPrefix_http scm.server hpre he.symm
      exact ⟨⟨fun _ => ⟨hcreds.1, hcreds.2, hC⟩, fun _ => hne⟩, fun _ => hserver,
        (saasRewrite_fields scm).1, (saasRewrite_fields scm).2.1,
        (saasRewrite_fields scm).2.2⟩
    · have hid : saasRewrite scm = scm := saasRewrite_id_of_not_cond scm hC
      rw [hid]
      exact ⟨⟨fun hne => absurd rfl hne, fun ⟨_, _, hc⟩ => absurd hc hC⟩,
        fun hne => absurd rfl hne, rfl, rfl, rfl⟩

/-- C3 witness: on "http://gitlab.com" with credentials present, the rewrite
fires and the resolver hands back the canonical secure endpoint. -/
theorem getOauthToken_rewrite_amended_witness :
    (getOauthToken (fun _ => HTTPResult.transportFailure)
        { server := "http://gitlab.com", username := "u", password := "p",
          token := "" }).1.server = gitLabServer := by
  have h := getOauthToken_rewrite_amended (fun _ => HTTPResult.transportFailure)
    { server := "http://gitlab.com", username := "u", password := "p", token := "" }
  exact h.2.1 (h.1.mpr ⟨by decide, by decide, by decide⟩)

/-! ### Lemmas about the prober, the cache and the factory -/

/-- When the token is already set, `detectAPIVersion` goes straight to the
probe. -/
theorem detectAPIVersion_of_token (http : Request → HTTPResult) (scm : SCMConfig)
    (h : scm.token ≠ "") : detectAPIVersion http scm = probeVersion http scm [] := by
  simp only [detectAPIVersion]
  rw [if_neg h]

/-- Every successful probe classifies the server as v3 or v4. -/
theorem probeVersion_ok_version (http : Request → HTTPResult) (scm : SCMConfig)
    (reqs : List Request) (scm1 : SCMConfig) (reqs1 : List Request) (v : String)
    (h : probeVersion http scm reqs = (scm1, reqs1, Except.ok v)) :
    v = v3APIVersion ∨ v = v4APIVersion := by
  simp only [probeVersion] at h
  cases hhttp : http (probeRequest scm) with
  | transportFailure =>
    rw [hhttp] at h
    simp only [] at h
    exact Except.noConfusion (congrArg (fun p => p.2.2) h)
  | ok resp =>
    rw [hhttp] at h
    simp only [] at h
    by_cases h200 : resp.status = 200
    · rw [if_pos h200] at h
      cases hdec : decodeVersionResponse resp.body with
      | some gv =>
        rw [hdec] at h
        simp only [] at h
        have := congrArg (fun p => p.2.2) h
        simp only [] at this
        right
        exact (Except.ok.inj this).symm
      | none =>
        rw [hdec] at h
        simp only [] at h
        exact Except.noConfusion (congrArg (fun p => p.2.2) h)
    · rw [if_neg h200] at h
      by_cases h34 : resp.status = 404 ∨ resp.status = 302
      · rw [if_pos h34] at h
        have := congrArg (fun p => p.2.2) h
        simp only [] at this
        left
        exact (Except.ok.inj this).symm
      · rw [if_neg h34] at h
        have := congrArg (fun p => p.2.2) h
        simp only [] at this
        left
        exact (Except.ok.inj this).symm

/-- A probe failure is a transport or a decode failure, never the unsupported
version error. -/
theorem probeVersion_error_not_unsupported (http : Request → HTTPResult) (scm : SCMConfig)
    (reqs : List Request) (scm1 : SCMConfig) (reqs1 : List Request) (e : GoErr)
    (h : probeVersion http scm reqs = (scm1, reqs1, Except.error e)) :
    ∀ ver, e ≠ GoErr.unsupportedVersion ver := by
  simp only [probeVersion] at h
  cases hhttp : http (probeRequest scm) with
  | transportFailure =>
    rw [hhttp] at h
    simp only [] at h
    have := congrArg (fun p => p.2.2) h
    simp only [] at this
    rw [← Except.error.inj this]
    intro ver hx
    exact GoErr.noConfusion hx
  | ok resp =>
    rw [hhttp] at h
    simp only [] at h
    by_cases h200 : resp.status = 200
    · rw [if_pos h200] at h
      cases hdec : decodeVersionResponse resp.body with
      | some gv =>
        rw [hdec] at h
        simp only [] at h
        exact Except.noConfusion (congrArg (fun p => p.2.2) h)
      | none =>
        rw [hdec] at h
        simp only [] at h
        have := congrArg (fun p => p.2.2) h
        simp only [] at this
        rw [← Except.error.inj this]
        intro ver hx
        exact GoErr.noConfusion hx
    · rw [if_neg h200] at h
      by_cases h34 : resp.status = 404 ∨ resp.status = 302
      · rw [if_pos h34] at h
        exact Except.noConfusion (congrArg (fun p => p.2.2) h)
      · rw [if_neg h34] at h
        exact Except.noConfusion (congrArg (fun p => p.2.2) h)

/-- A credential-resolution failure is never the unsupported version
error. -/
theorem getOauthToken_error_not_unsupported (http : Request → HTTPResult) (scm : SCMConfig)
    (scm1 : SCMConfig) (reqs : List Request) (e : GoErr)
    (h : getOauthToken http scm = (scm1, reqs, Except.error e)) :
    ∀ ver, e ≠ GoErr.unsupportedVersion ver := by
  simp only [getOauthToken] at h
  by_cases hcred : scm.username.length = 0 ∨ scm.password.length = 0
  · rw [if_pos hcred] at h
    have := congrArg (fun p => p.2.2) h
    simp only [] at this
    rw [← Except.error.inj this]
    intro ver hx
    exact GoErr.noConfusion hx
  · rw [if_neg hcred] at h
    cases hhttp : http (oauthTokenRequest (saasRewrite scm).server scm.username scm.password) with
    | transportFailure =>
      rw [hhttp] at h
      simp only [] at h
      have := congrArg (fun p => p.2.2) h
      simp only [] at this
      rw [← Except.error.inj this]
      intro ver hx
      exact GoErr.noConfusion hx
    | ok resp =>
      rw [hhttp] at h
      simp only [] at h
      by_cases h2 : resp.status / 100 = 2
      · rw [if_pos h2] at h
        cases hdec : decodeOauthToken resp.body with
        | some tok =>
          rw [hdec] at h
          simp only [] at h
          exact Except.noConfusion (congrArg (fun p => p.2.2) h)
        | none =>
          rw [hdec] at h
          simp only [] at h
          have := congrArg (fun p => p.2.2) h
          simp only [] at this
          rw [← Except.error.inj this]
          intro ver hx
          exact GoErr.noConfusion hx
      · rw [if_neg h2] at h
        have := congrArg (fun p => p.2.2) h
        simp only [] at this
        rw [← Except.error.inj this]
        intro ver hx
        exact GoErr.noConfusion hx

/-- Every successful version detection returns v3 or v4. -/
theorem detectAPIVersion_ok_version (http : Request → HTTPResult) (scm : SCMConfig)
    (scm1 : SCMConfig) (reqs : List Request) (v : String)
    (h : detectAPIVersion http scm = (scm1, reqs, Except.ok v)) :
    v = v3APIVersion ∨ v = v4APIVersion := by
  simp only [detectAPIVersion] at h
  by_cases htok : scm.token = ""
  · rw [if_pos htok] at h
    rcases hoauth : getOauthToken http scm with ⟨scm2, reqs2, res2⟩
    rw [hoauth] at h
    cases res2 with
    | error e =>
      simp only [] at h
      exact Except.noConfusion (congrArg (fun p => p.2.2) h)
    | ok tok =>
      simp only [] at h
      exact probeVersion_ok_version _ _ _ _ _ _ h
  · rw [if_neg htok] at h
    exact probeVersion_ok_version _ _ _ _ _ _ h

/-- A version-detection failure is never the unsupported version error. -/
theorem detectAPIVersion_error_not_unsupported (http : Request → HTTPResult) (scm : SCMConfig)
    (scm1 : SCMConfig) (reqs : List Request) (e : GoErr)
    (h : detectAPIVersion http scm = (scm1, reqs, Except.error e)) :
    ∀ ver, e ≠ GoErr.unsupportedVersion ver := by
  simp only [detectAPIVersion] at h
  by_cases htok : scm.token = ""
  · rw [if_pos htok] at h
    rcases hoauth : getOauthToken http scm with ⟨scm2, reqs2, res2⟩
    rw [hoauth] at h
    cases res2 with
    | error e2 =>
      simp only [] at h
      have := congrArg (fun p => p.2.2) h
      simp only [] at this
      rw [← Except.error.inj this]
      exact getOauthToken_error_not_unsupported http scm scm2 reqs2 e2 hoauth
    | ok tok =>
      simp only [] at h
      exact probeVersion_error_not_unsupported _ _ _ _ _ _ h
  · rw [if_neg htok] at h
    exact probeVersion_error_not_unsupported _ _ _ _ _ _ h

/-- A cache satisfying the invariant only ever answers v3 or v4. -/
theorem cacheGet_WF (cache : VersionCache) (hWF : CacheWF cache) (k v : String)
    (h : cacheGet cache k = some v) : v = v3APIVersion ∨ v = v4APIVersion := by
  induction cache with
  | nil => exact Option.noConfusion h
  | cons hd t ih =>
    obtain ⟨k1, v1⟩ := hd
    simp only [cacheGet] at h
    by_cases hk : k1 = k
    · rw [if_pos hk] at h
      rw [← Option.some.inj h]
      exact hWF (k1, v1) (List.mem_cons_self _ _)
    · rw [if_neg hk] at h
      exact ih (fun p hp => hWF p (List.mem_cons_of_mem _ hp)) h

/-- Every successful version resolution returns v3 or v4 when the cache
satisfies the invariant. -/
theorem getAPIVersion_ok_version (http : Request → HTTPResult) (scm : SCMConfig)
    (cache : VersionCache) (hWF : CacheWF cache) (scm1 : SCMConfig) (cache1 : VersionCache)
    (reqs : List Request) (v : String)
    (h : getAPIVersion http scm cache = (scm1, cache1, reqs, Except.ok v)) :
    v = v3APIVersion ∨ v = v4APIVersion := by
  simp only [getAPIVersion] at h
  cases hc : cacheGet cache (ParseServerURL scm.server) with
  | some w =>
    rw [hc] at h
    simp only [] at h
    have := congrArg (fun p => p.2.2.2) h
    simp only [] at this
    rw [← Except.ok.inj this]
    exact cacheGet_WF cache hWF _ w hc
  | none =>
    rw [hc] at h
    simp only [] at h
    rcases hdet : detectAPIVersion http scm with ⟨scm2, reqs2, res2⟩
    rw [hdet] at h
    cases res2 with
    | error e =>
      simp only [] at h
      exact Except.noConfusion (congrArg (fun p => p.2.2.2) h)
    | ok version =>
      simp only [] at h
      have := congrArg (fun p => p.2.2.2) h
      simp only [] at this
      rw [← Except.ok.inj this]
      exact detectAPIVersion_ok_version http scm scm2 reqs2 version hdet

/-- A version-resolution failure is never the unsupported version error. -/
theorem getAPIVersion_error_not_unsupported (http : Request → HTTPResult) (scm : SCMConfig)
    (cache : VersionCache) (scm1 : SCMConfig) (cache1 : VersionCache)
    (reqs : List Request) (e : GoErr)
    (h : getAPIVersion http scm cache = (scm1, cache1, reqs, Except.error e)) :
    ∀ ver, e ≠ GoErr.unsupportedVersion ver := by
  simp only [getAPIVersion] at h
  cases hc : cacheGet cache (ParseServerURL scm.server) with
  | some w =>
    rw [hc] at h
    simp only [] at h
    exact Except.noConfusion (congrArg (fun p => p.2.2.2) h)
  | none =>
    rw [hc] at h
    simp only [] at h
    rcases hdet : detectAPIVersion http scm with ⟨scm2, reqs2, res2⟩
    rw [hdet] at h
    cases res2 with
    | error e2 =>
      simp only [] at h
      have := congrArg (fun p => p.2.2.2) h
      simp only [] at this
      rw [← Except.error.inj this]
      exact detectAPIVersion_error_not_unsupported http scm scm2 reqs2 e2 hdet
    | ok version =>
      simp only [] at h
      exact Except.noConfusion (congrArg (fun p => p.2.2.2) h)

/-- A client-construction failure is always `clientConstructionFailed`. -/
theorem newGitlabV3Client_error (setBaseURLOk : String → Bool)
    (server username token : String) (e : GoErr)
    (h : newGitlabV3Client setBaseURLOk server username token = Except.error e) :
    e = GoErr.clientConstructionFailed := by
  simp only [newGitlabV3Client] at h
  split at h
  · exact Except.noConfusion h
  · exact (Except.error.inj h).symm

/-- A v4 client-construction failure is always `clientConstructionFailed`. -/
theorem newGitlabV4Client_error (setBaseURLOk : String → Bool)
    (server username token : String) (e : GoErr)
    (h : newGitlabV4Client setBaseURLOk server username token = Except.error e) :
    e = GoErr.clientConstructionFailed := by
  simp only [newGitlabV4Client] at h
  split at h
  · exact Except.noConfusion h
  · exact (Except.error.inj h).symm

/-- C1: classification of the probe responses by `detectAPIVersion` (on a
config whose token is already resolved): 200 with a body decodable as a
version object classifies the server as v4; 404 or 302 classifies it as v3;
any other status also classifies it as v3 (warning logged); and a
transport-level failure yields an error with no classification. -/
theorem detectAPIVersion_classification (http : Request → HTTPResult) (scm : SCMConfig)
    (htok : scm.token ≠ "") :
    (∀ resp, http (probeRequest scm) = HTTPResult.ok resp →
      ((resp.status = 200 → ∀ v r t, resp.body = RespBody.json v r t →
          detectAPIVersion http scm = (scm, [probeRequest scm], Except.ok v4APIVersion))
        ∧ (resp.status = 404 ∨ resp.status = 302 →
            detectAPIVersion http scm = (scm, [probeRequest scm], Except.ok v3APIVersion))
        ∧ (resp.status ≠ 200 → resp.status ≠ 404 → resp.status ≠ 302 →
            detectAPIVersion http scm = (scm, [probeRequest scm], Except.ok v3APIVersion))))
      ∧ (http (probeRequest scm) = HTTPResult.transportFailure →
          detectAPIVersion http scm
            = (scm, [probeRequest scm], Except.error GoErr.transportFailure)) := by
  rw [detectAPIVersion_of_token http scm htok]
  constructor
  · intro resp hresp
    refine ⟨?_, ?_, ?_⟩
    · intro h200 v r t hbody
      simp only [probeVersion]
      rw [hresp]
      simp only []
      rw [if_pos h200, hbody]
      simp only [decodeVersionResponse, List.nil_append]
    · intro h34
      have h200 : resp.status ≠ 200 := by
        rcases h34 with h | h <;> rw [h] <;> decide
      simp only [probeVersion]
      rw [hresp]
      simp only []
      rw [if_neg h200, if_pos h34]
      simp only [List.nil_append]
    · intro h200 h404 h302
      have h34 : ¬ (resp.status = 404 ∨ resp.status = 302) := by
        rintro (h | h)
        · exact h404 h
        · exact h302 h
      simp only [probeVersion]
      rw [hresp]
      simp only []
      rw [if_neg h200, if_neg h34]
      simp only [List.nil_append]
  · intro htrans
    simp only [probeVersion]
    rw [htrans]
    simp only [List.nil_append]

/-- C1 witness: a 200 response with a decodable version body is classified
as v4. -/
theorem detectAPIVersion_classification_witness :
    detectAPIVersion (fun _ => HTTPResult.ok ⟨200, RespBody.json "9.0" "" ""⟩)
        { server := "http://a", username := "", password := "", token := "tkn" }
      = ({ server := "http://a", username := "", password := "", token := "tkn" },
          [probeRequest { server := "http://a", username := "", password := "", token := "tkn" }],
          Except.ok v4APIVersion) :=
  ((detectAPIVersion_classification
        (fun _ => HTTPResult.ok ⟨200, RespBody.json "9.0" "" ""⟩)
        { server := "http://a", username := "", password := "", token := "tkn" }
        (by decide)).1 ⟨200, RespBody.json "9.0" "" ""⟩ rfl).1 rfl "9.0" "" "" rfl

/-- C2: the version cache is written only on a successful probe.  On a cache
hit, `getAPIVersion` answers from the cache, issues no request and leaves
cache and config untouched; on a cache miss it probes, writing the result to
the cache only on success; on a probe failure (transport failure included)
the cache is left unchanged. -/
theorem getAPIVersion_cache (http : Request → HTTPResult) (scm : SCMConfig)
    (cache : VersionCache) :
    (∀ v, cacheGet cache (ParseServerURL scm.server) = some v →
        getAPIVersion http scm cache = (scm, cache, [], Except.ok v))
      ∧ (cacheGet cache (ParseServerURL scm.server) = none →
          (∀ scm1 reqs e, detectAPIVersion http scm = (scm1, reqs, Except.error e) →
              getAPIVersion http scm cache = (scm1, cache, reqs, Except.error e))
            ∧ (∀ scm1 reqs version,
                detectAPIVersion http scm = (scm1, reqs, Except.ok version) →
                getAPIVersion http scm cache
                  = (scm1, cacheSet cache (ParseServerURL scm.server) version, reqs,
                      Except.ok version))) := by
  constructor
  · intro v hv
    simp only [getAPIVersion]
    rw [hv]
  · intro hnone
    constructor
    · intro scm1 reqs e hdet
      simp only [getAPIVersion]
      rw [hnone, hdet]
    · intro scm1 reqs version hdet
      simp only [getAPIVersion]
      rw [hnone, hdet]

/-- C2 witness: a cached identity is answered without touching the network
(the environment here would fail every request). -/
theorem getAPIVersion_cache_witness :
    getAPIVersion (fun _ => HTTPResult.transportFailure)
        { server := "http://a", username := "", password := "", token := "" }
        [("http://a", "v3")]
      = ({ server := "http://a", username := "", password := "", token := "" },
          [("http://a", "v3")], [], Except.ok "v3") :=
  (getAPIVersion_cache (fun _ => HTTPResult.transportFailure)
      { server := "http://a", username := "", password := "", token := "" }
      [("http://a", "v3")]).1 "v3" rfl

/-- C9: the unsupported-version default branch of `NewGitlab` is unreachable.
Whenever `getAPIVersion` succeeds (under the cache invariant, which the
initial empty cache satisfies and every write preserves) it returns exactly
"v3" or "v4", and `NewGitlab` never produces the unsupported-generation
error. -/
theorem NewGitlab_no_unsupported (setBaseURLOk : String → Bool)
    (http : Request → HTTPResult) (scm : SCMConfig) (cache : VersionCache)
    (hWF : CacheWF cache) :
    (∀ scm1 cache1 reqs v,
        getAPIVersion http scm cache = (scm1, cache1, reqs, Except.ok v) →
        v = v3APIVersion ∨ v = v4APIVersion)
      ∧ ∀ ver, (NewGitlab setBaseURLOk http scm cache).2.2.2
          ≠ Except.error (GoErr.unsupportedVersion ver) := by
  refine ⟨fun scm1 cache1 reqs v h =>
    getAPIVersion_ok_version http scm cache hWF scm1 cache1 reqs v h, ?_⟩
  intro ver
  simp only [NewGitlab]
  rcases hga : getAPIVersion http scm cache with ⟨scm1, cache1, reqs, res⟩
  cases res with
  | error e =>
    simp only []
    intro hx
    exact getAPIVersion_error_not_unsupported http scm cache scm1 cache1 reqs e hga ver
      (Except.error.inj hx)
  | ok version =>
    simp only []
    rcases getAPIVersion_ok_version http scm cache hWF scm1 cache1 reqs version hga with
      h3 | h4
    · rw [if_pos h3]
      cases hcl : newGitlabV3Client setBaseURLOk scm1.server scm1.username scm1.token with
      | error e =>
        simp only []
        intro hx
        have he : e = GoErr.clientConstructionFailed :=
          newGitlabV3Client_error setBaseURLOk scm1.server scm1.username scm1.token e hcl
        rw [he] at hx
        exact GoErr.noConfusion (Except.error.inj hx)
      | ok client =>
        simp only []
        intro hx
        exact Except.noConfusion hx
    · have h3 : ¬ version = v3APIVersion := by
        rw [h4]
        decide
      rw [if_neg h3, if_pos h4]
      cases hcl : newGitlabV4Client setBaseURLOk scm1.server scm1.username scm1.token with
      | error e =>
        simp only []
        intro hx
        have he : e = GoErr.clientConstructionFailed :=
          newGitlabV4Client_error setBaseURLOk scm1.server scm1.username scm1.token e hcl
        rw [he] at hx
        exact GoErr.noConfusion (Except.error.inj hx)
      | ok v4Client =>
        simp only []
        intro hx
        exact Except.noConfusion hx

/-- C9 witness: starting from the empty cache (which satisfies the
invariant), a v3 server yields the v3 adapter, never the unsupported
error. -/
theorem NewGitlab_no_unsupported_witness :
    (NewGitlab (fun _ => true) (fun _ => HTTPResult.ok ⟨404, RespBody.malformed ""⟩)
        { server := "http://a", username := "", password := "", token := "t" } []).2.2.2
      ≠ Except.error (GoErr.unsupportedVersion "v5") :=
  (NewGitlab_no_unsupported (fun _ => true)
      (fun _ => HTTPResult.ok ⟨404, RespBody.malformed ""⟩)
      { server := "http://a", username := "", password := "", token := "t" } []
      (fun p hp => absurd hp (List.not_mem_nil p))).2 "v5"

end Cyclone
